import Mathlib

/-!
Verification of the yema schema library: the schema IR (`yema.Type`), the
instance validator (`validator.Validate` / `validateValue` /
`validateIntValue` / `validateUintValue` / `validateFloatValue`), the schema
builder (`parser.From` / `parseValueToType`), and the structural emitter walk
(`golang.ToGolang` / `generateStructs` / `typeToGoType` / `toCamelCase`).

Conventions of the embedding:
- Go `map[string]T` values are embedded as association lists
  `List (String × T)`; Go map iteration order is unspecified, the list order
  plays the role of one concrete iteration order.
- Go `error` values are embedded as inductive types with one constructor per
  `fmt.Errorf` site (the format string determines the constructor).
- Go `float64`/`float32` dynamic values are embedded as rationals; the
  whole-number test `v == float64(int64(v))` is embedded as `den = 1`
  (exact for the range the claims exercise).
- `json.Number` is embedded by the results of its `Int64()` and `Float64()`
  methods (`none` = the method returns an error).
- Machine integers appearing as dynamic values are carried as unbounded
  `Int`/`Nat`; the Go widening conversions `int8 → int64` etc. are
  value-preserving, so they are embedded as the identity.
-/

/-- Kinds of schema nodes, from `yema.Kind` (yema.go). -/
inductive YKind where
  | invalid
  | bool
  | int
  | int8
  | int16
  | int32
  | int64
  | uint
  | uint8
  | uint16
  | uint32
  | uint64
  | float32
  | float64
  | array
  | struct
  | string
  | bytes
deriving DecidableEq, Repr

/-- Schema node, from `yema.Type` (yema.go): a kind tag, the optional flag,
a nullable pointer to a field map (`Struct`) and a nullable pointer to an
element type (`Array`). -/
inductive YType where
  | mk (kind : YKind) (optional : Bool)
       (struct : Option (List (String × YType)))
       (array : Option YType)

/-- Projection for the `Kind` field of `yema.Type`. -/
def YType.kind : YType → YKind
  | .mk k _ _ _ => k

/-- Projection for the `Optional` field of `yema.Type`. -/
def YType.optional : YType → Bool
  | .mk _ o _ _ => o

/-- Projection for the `Struct` field of `yema.Type` (`none` = nil pointer). -/
def YType.struct : YType → Option (List (String × YType))
  | .mk _ _ s _ => s

/-- Projection for the `Array` field of `yema.Type` (`none` = nil pointer). -/
def YType.array : YType → Option YType
  | .mk _ _ _ a => a

/-- Dynamic Go values (`interface%x7b%x7d`) as the validator inspects them:
exactly the types appearing in the type switches of validator.go.
`jnum i f` embeds a `json.Number` by the outcomes of its `Int64()` (`i`) and
`Float64()` (`f`) methods, `none` meaning the method returns an error. -/
inductive YValue where
  | vnil
  | b (x : Bool)
  | s (x : String)
  | bytes (x : List Nat)
  | jnum (i : Option Int) (f : Option Rat)
  | i (n : Int)
  | i8 (n : Int)
  | i16 (n : Int)
  | i32 (n : Int)
  | i64 (n : Int)
  | u (n : Nat)
  | u8 (n : Nat)
  | u16 (n : Nat)
  | u32 (n : Nat)
  | u64 (n : Nat)
  | f32 (q : Rat)
  | f64 (q : Rat)
  | arr (xs : List YValue)
  | vmap (m : List (String × YValue))

/-- Validator errors, one constructor per `fmt.Errorf` site in validator.go. -/
inductive VErr where
  | invalidSchema
  | requiredFieldMissing (path : String)
  | nilNotOptional (path : String)
  | mustBeBoolean (path : String)
  | mustBeString (path : String)
  | mustBeInteger (path : String)
  | mustBeNonNegInteger (path : String)
  | outOfRange (path : String) (kind : YKind)
  | mustBeNumber (path : String)
  | outOfRangeFloat32 (path : String)
  | arrayDefNil (path : String)
  | mustBeArray (path : String)
  | structDefNil (path : String)
  | mustBeMap (path : String)
  | mustBeBytesOrString (path : String)
  | unsupportedKind (kind : YKind) (path : String)
deriving DecidableEq, Repr

/-- First-match lookup in an association list, embedding Go map indexing
`value, exists := data[fieldName]` (Go maps have unique keys). -/
def mapGet (m : List (String × YValue)) (k : String) : Option YValue :=
  match m with
  | [] => none
  | (k2, v) :: rest => if k2 = k then some v else mapGet rest k

/-- The `int64` representation extracted by the type switch of
`validateIntValue`: `some n` iff the switch sets `isInt = true` with
`intVal = n`. The `float64` case embeds `v == float64(int64(v))`
as integrality of the rational. -/
def intReprAsInt64 : YValue → Option Int
  | .jnum i _ => i
  | .i n => some n
  | .i8 n => some n
  | .i16 n => some n
  | .i32 n => some n
  | .i64 n => some n
  | .f64 q => if q.den = 1 then some q.num else none
  | _ => none

/-- Range validation switch of `validateIntValue` (validator.go):
only `Int8`, `Int16`, `Int32` are range-checked; `Int64`, `Int` and every
other kind fall through with no check. -/
def intRangeCheck (kind : YKind) (n : Int) (path : String) : Option VErr :=
  match kind with
  | .int8 => if n < -128 ∨ n > 127 then some (.outOfRange path .int8) else none
  | .int16 => if n < -32768 ∨ n > 32767 then some (.outOfRange path .int16) else none
  | .int32 => if n < -2147483648 ∨ n > 2147483647 then some (.outOfRange path .int32) else none
  | _ => none

/-- Embedding of `validateIntValue` (validator.go). -/
def validateIntValue (value : YValue) (kind : YKind) (path : String) : Option VErr :=
  match intReprAsInt64 value with
  | none => some (.mustBeInteger path)
  | some n => intRangeCheck kind n path

/-- The `uint64` representation extracted by the type switch of
`validateUintValue`: `some n` iff the switch sets `isUint = true` with
`uintVal = n`. Signed inputs are accepted only when non-negative; the
`json.Number` case requires `Int64()` to succeed with a non-negative value. -/
def uintReprAsUint64 : YValue → Option Nat
  | .jnum i _ =>
    match i with
    | some n => if 0 ≤ n then some n.toNat else none
    | none => none
  | .u n => some n
  | .u8 n => some n
  | .u16 n => some n
  | .u32 n => some n
  | .u64 n => some n
  | .i n => if 0 ≤ n then some n.toNat else none
  | .i8 n => if 0 ≤ n then some n.toNat else none
  | .i16 n => if 0 ≤ n then some n.toNat else none
  | .i32 n => if 0 ≤ n then some n.toNat else none
  | .i64 n => if 0 ≤ n then some n.toNat else none
  | .f64 q => if 0 ≤ q ∧ q.den = 1 then some q.num.toNat else none
  | _ => none

/-- Range validation switch of `validateUintValue` (validator.go). -/
def uintRangeCheck (kind : YKind) (n : Nat) (path : String) : Option VErr :=
  match kind with
  | .uint8 => if n > 255 then some (.outOfRange path .uint8) else none
  | .uint16 => if n > 65535 then some (.outOfRange path .uint16) else none
  | .uint32 => if n > 4294967295 then some (.outOfRange path .uint32) else none
  | _ => none

/-- Embedding of `validateUintValue` (validator.go). -/
def validateUintValue (value : YValue) (kind : YKind) (path : String) : Option VErr :=
  match uintReprAsUint64 value with
  | none => some (.mustBeNonNegInteger path)
  | some n => uintRangeCheck kind n path

/-- The `float64` representation extracted by the type switch of
`validateFloatValue`. -/
def floatRepr : YValue → Option Rat
  | .jnum _ f => f
  | .f32 q => some q
  | .f64 q => some q
  | .i n => some n
  | .i8 n => some n
  | .i16 n => some n
  | .i32 n => some n
  | .i64 n => some n
  | .u n => some n
  | .u8 n => some n
  | .u16 n => some n
  | .u32 n => some n
  | .u64 n => some n
  | _ => none

/-- Embedding of `validateFloatValue` (validator.go); the `float32` bound
`3.4e38` is the literal from the source. -/
def validateFloatValue (value : YValue) (kind : YKind) (path : String) : Option VErr :=
  match floatRepr value with
  | none => some (.mustBeNumber path)
  | some q =>
    if kind = .float32 then
      if q > (34 : Rat) * 10 ^ 37 ∨ q < -((34 : Rat) * 10 ^ 37) then
        some (.outOfRangeFloat32 path)
      else none
    else none

/-- Element path `path[i]` built by the array case of `validateValue`. -/
def idxPath (path : String) (i : Nat) : String :=
  path ++ "[" ++ toString i ++ "]"

/-- Field path `path.field` built by the struct case of `validateValue`. -/
def dotPath (path : String) (field : String) : String :=
  path ++ "." ++ field

mutual

/-- Embedding of `validateValue` (validator.go): checks one value against one
schema node, returning the first violation (`none` = no violation). -/
def validateValue (value : YValue) (t : YType) (path : String) : Option VErr :=
  match t with
  | .mk k opt ost oarr =>
    match value with
    | .vnil => if opt then none else some (.nilNotOptional path)
    | v =>
      match k with
      | .bool =>
        match v with
        | .b _ => none
        | _ => some (.mustBeBoolean path)
      | .string =>
        match v with
        | .s _ => none
        | _ => some (.mustBeString path)
      | .int => validateIntValue v .int path
      | .int8 => validateIntValue v .int8 path
      | .int16 => validateIntValue v .int16 path
      | .int32 => validateIntValue v .int32 path
      | .int64 => validateIntValue v .int64 path
      | .uint => validateUintValue v .uint path
      | .uint8 => validateUintValue v .uint8 path
      | .uint16 => validateUintValue v .uint16 path
      | .uint32 => validateUintValue v .uint32 path
      | .uint64 => validateUintValue v .uint64 path
      | .float32 => validateFloatValue v .float32 path
      | .float64 => validateFloatValue v .float64 path
      | .array =>
        match oarr with
        | none => some (.arrayDefNil path)
        | some elemT =>
          match v with
          | .arr xs => validateElems xs elemT path 0
          | _ => some (.mustBeArray path)
      | .struct =>
        match ost with
        | none => some (.structDefNil path)
        | some fields =>
          match v with
          | .vmap m => validateFields fields m path
          | _ => some (.mustBeMap path)
      | .bytes =>
        match v with
        | .bytes _ => none
        | .s _ => none
        | _ => some (.mustBeBytesOrString path)
      | .invalid => some (.unsupportedKind .invalid path)
termination_by (sizeOf t, 0)
decreasing_by all_goals (simp_wf <;> omega)

/-- The element loop of the `yema.Array` case of `validateValue`: validates
elements in order against the element schema and returns the first violation. -/
def validateElems (xs : List YValue) (elemT : YType) (path : String) (i : Nat) :
    Option VErr :=
  match xs with
  | [] => none
  | x :: rest =>
    match validateValue x elemT (idxPath path i) with
    | some e => some e
    | none => validateElems rest elemT path (i + 1)
termination_by (sizeOf elemT + 1, sizeOf xs)
decreasing_by all_goals (simp_wf <;> omega)

/-- The field loop of the `yema.Struct` case of `validateValue`: iterates the
schema fields, skipping absent optional fields, and returns the first
violation. -/
def validateFields (fields : List (String × YType)) (m : List (String × YValue))
    (path : String) : Option VErr :=
  match fields with
  | [] => none
  | (fname, ftype) :: rest =>
    match mapGet m fname with
    | none =>
      if ftype.optional then validateFields rest m path
      else some (.requiredFieldMissing (dotPath path fname))
    | some v =>
      match validateValue v ftype (dotPath path fname) with
      | some e => some e
      | none => validateFields rest m path
termination_by (sizeOf fields + 1, 0)
decreasing_by all_goals (simp_wf <;> omega)

end

/-- The accumulation loop of `Validate` (validator.go): folds over the schema
fields appending at most one violation per field, exactly as the Go
`errors = append(errors, ...)` loop does. -/
def validateTop (fields : List (String × YType)) (data : List (String × YValue))
    (acc : List VErr) : List VErr :=
  match fields with
  | [] => acc
  | (fname, ftype) :: rest =>
    match mapGet data fname with
    | none =>
      if ftype.optional then validateTop rest data acc
      else validateTop rest data (acc ++ [.requiredFieldMissing fname])
    | some v =>
      match validateValue v ftype fname with
      | some e => validateTop rest data (acc ++ [e])
      | none => validateTop rest data acc

/-- Embedding of `Validate` (validator.go): a nil schema or a nil `Struct`
pointer yields the single invalid-schema error; otherwise every schema field
is checked and all sibling violations are collected. -/
def Validate (data : List (String × YValue)) (schema : Option YType) : List VErr :=
  match schema with
  | none => [.invalidSchema]
  | some t =>
    match t.struct with
    | none => [.invalidSchema]
    | some fields => validateTop fields data []

/-- Builder errors, one per `fmt.Errorf` site in parser.go. -/
inductive PErr where
  | invalidFieldName (name : String)
  | unknownTypeName (field : String) (value : String)
  | missingArrayElementType (field : String)
  | ambiguousArrayElementType (field : String)
  | unsupportedValue (field : String)
deriving DecidableEq, Repr

/-- Untyped decoded input trees as parser.go inspects them: strings,
sequences, string-keyed maps; `other` stands for every dynamic type hitting
the default case of `parseValueToType`. -/
inductive RawValue where
  | str (s : String)
  | seq (xs : List RawValue)
  | rmap (m : List (String × RawValue))
  | other

/-- Embedding of `isValidFieldName` (parser.go): first character a letter or
underscore, the rest letters, digits or underscores. `unicode.IsLetter` /
`unicode.IsDigit` are embedded on the ASCII subset the claims exercise. -/
def isValidFieldName (name : String) : Bool :=
  match name.toList with
  | [] => false
  | c :: rest =>
    (c.isAlpha || c == '_') &&
      rest.all (fun r => r.isAlpha || r.isDigit || r == '_')

/-- The exact case-sensitive primitive-kind lookup table of
`parseValueToType` (parser.go). -/
def kindOfName (v : String) : Option YKind :=
  if v = "bool" then some .bool
  else if v = "int" then some .int
  else if v = "int8" then some .int8
  else if v = "int16" then some .int16
  else if v = "int32" then some .int32
  else if v = "int64" then some .int64
  else if v = "uint" then some .uint
  else if v = "uint8" then some .uint8
  else if v = "uint16" then some .uint16
  else if v = "uint32" then some .uint32
  else if v = "uint64" then some .uint64
  else if v = "float32" then some .float32
  else if v = "float64" then some .float64
  else if v = "string" then some .string
  else if v = "bytes" then some .bytes
  else none

/-- Key insertion into an association list with Go map semantics: replace the
value at an existing key, otherwise append. -/
def upsert {α : Type} (l : List (String × α)) (k : String) (v : α) :
    List (String × α) :=
  match l with
  | [] => [(k, v)]
  | (k2, v2) :: rest =>
    if k2 = k then (k, v) :: rest else (k2, v2) :: upsert rest k v

/-- The optional-suffix convention: a trailing `?` is stripped and marks the
field optional (parser.go, both in `From` and in the nested-map case).
`strings.HasSuffix(key, "?")` and `key[:len(key)-1]` are embedded on the
character list (`?` is a single-byte character, so the byte-level and
character-level operations agree). -/
def stripOpt (key : String) : Bool × String :=
  if key.toList.getLast? = some (Char.ofNat 63) then
    (true, String.mk key.toList.dropLast)
  else (false, key)

mutual

/-- Embedding of `parseValueToType` (parser.go). -/
def parseValueToType (fieldName : String) (value : RawValue) (isOptional : Bool) :
    Except PErr YType :=
  match value with
  | .str v =>
    match kindOfName v with
    | some k => .ok (.mk k isOptional none none)
    | none => .error (.unknownTypeName fieldName v)
  | .seq xs =>
    match xs with
    | [] => .error (.missingArrayElementType fieldName)
    | [x] =>
      match parseValueToType fieldName x false with
      | .error e => .error e
      | .ok itemType => .ok (.mk .array isOptional none (some itemType))
    | _ :: _ :: _ => .error (.ambiguousArrayElementType fieldName)
  | .rmap m =>
    match parseStructFields m [] with
    | .error e => .error e
    | .ok fields => .ok (.mk .struct isOptional (some fields) none)
  | .other => .error (.unsupportedValue fieldName)
termination_by (sizeOf value, 1)
decreasing_by all_goals (simp_wf <;> omega)

/-- The field loop shared by `From` and the nested-map case of
`parseValueToType` (parser.go): strip the optional suffix, validate the
field name, parse the value, insert into the field map. -/
def parseStructFields (m : List (String × RawValue))
    (acc : List (String × YType)) : Except PErr (List (String × YType)) :=
  match m with
  | [] => .ok acc
  | (k, val) :: rest =>
    let opt := (stripOpt k).1
    let fieldName := (stripOpt k).2
    if isValidFieldName fieldName then
      match parseValueToType fieldName val opt with
      | .error e => .error e
      | .ok t => parseStructFields rest (upsert acc fieldName t)
    else .error (.invalidFieldName fieldName)
termination_by (sizeOf m, 2)
decreasing_by all_goals (simp_wf <;> omega)

end

/-- Embedding of `From` (parser.go): build the root record from the decoded
schema map; the root node has `Kind = Struct`, `Optional = false`, and a nil
`Array` pointer. -/
def FromRaw (schema : List (String × RawValue)) : Except PErr YType :=
  match parseStructFields schema [] with
  | .error e => .error e
  | .ok fields => .ok (.mk .struct false (some fields) none)

/-- Go code generator errors, one per error site in golang.go reachable from
`ToGolang`; `nilStructDeref` embeds the nil-map dereference panic that
`generateStructs` hits on a node with `Kind = Struct` and a nil `Struct`
pointer. -/
inductive GErr where
  | nilType
  | rootNotStruct (kind : YKind)
  | arrayNilElem
  | unexpectedKind (kind : YKind)
  | nilStructDeref
deriving DecidableEq, Repr

/-- Character loop of `toCamelCase` (golang.go): underscores, hyphens and
spaces set the upper-case flag and are dropped; other characters are emitted,
upper-cased when the flag is set. `unicode.ToUpper` is embedded by
`Char.toUpper` (ASCII, the subset the claims exercise). -/
def camelGo : List Char → Bool → List Char
  | [], _ => []
  | c :: cs, up =>
    if c = '_' ∨ c = '-' ∨ c = ' ' then camelGo cs true
    else (if up then c.toUpper else c) :: camelGo cs false

/-- Embedding of `toCamelCase` (golang.go); the flag starts true. -/
def toCamelCase (s : String) : String :=
  String.mk (camelGo s.toList true)

/-- Names of the primitive Go types emitted by `typeToGoType` (golang.go);
the composite and invalid kinds never reach this table. -/
def primGo : YKind → String
  | .bool => "bool"
  | .int => "int"
  | .int8 => "int8"
  | .int16 => "int16"
  | .int32 => "int32"
  | .int64 => "int64"
  | .uint => "uint"
  | .uint8 => "uint8"
  | .uint16 => "uint16"
  | .uint32 => "uint32"
  | .uint64 => "uint64"
  | .float32 => "float32"
  | .float64 => "float64"
  | .string => "string"
  | _ => ""

/-- Embedding of `typeToGoType` (golang.go): returns the Go type token and
the nested struct name (`""` = none). Optional scalars and records are
pointer-wrapped; arrays and bytes are not. -/
def typeToGoType (t : YType) (parentName : String) (fieldName : String) :
    Except GErr (String × String) :=
  match t with
  | .mk k opt ost oarr =>
    match k with
    | .invalid => .error (.unexpectedKind .invalid)
    | .bytes => .ok ("[]byte", "")
    | .array =>
      match oarr with
      | none => .error .arrayNilElem
      | some elem =>
        match typeToGoType elem parentName fieldName with
        | .error e => .error e
        | .ok (elemType, elemNested) => .ok ("[]" ++ elemType, elemNested)
    | .struct =>
      .ok (if opt then "*" ++ (parentName ++ toCamelCase fieldName)
           else parentName ++ toCamelCase fieldName,
           parentName ++ toCamelCase fieldName)
    | k2 =>
      .ok (if opt then "*" ++ primGo k2 else primGo k2, "")
termination_by sizeOf t
decreasing_by all_goals (simp_wf <;> omega)

mutual

/-- Recursion weight of a nullable field map, counting only schema structure
(record names that the walk manufactures do not count). -/
def oWeight : Option (List (String × YType)) → Nat
  | none => 0
  | some fs => 1 + fWeight fs
termination_by o => sizeOf o
decreasing_by all_goals (simp_wf <;> omega)

/-- Recursion weight of a field list. -/
def fWeight : List (String × YType) → Nat
  | [] => 0
  | (_, t) :: rest => 1 + tWeight t + fWeight rest
termination_by fs => sizeOf fs
decreasing_by all_goals (simp_wf <;> omega)

/-- Recursion weight of a schema node. -/
def tWeight : YType → Nat
  | .mk _ _ ost oarr => 1 + oWeight ost + aWeight oarr
termination_by t => sizeOf t
decreasing_by all_goals (simp_wf <;> omega)

/-- Recursion weight of a nullable element type. -/
def aWeight : Option YType → Nat
  | none => 0
  | some t => 1 + tWeight t
termination_by o => sizeOf o
decreasing_by all_goals (simp_wf <;> omega)

end

/-- Recursion weight of a collected nested-record list. -/
def pWeight : List (String × Option (List (String × YType))) → Nat
  | [] => 0
  | (_, ofs) :: rest => 2 + oWeight ofs + pWeight rest

/-- Test `fieldType.Kind == yema.Array && fieldType.Array.Kind == yema.Struct`
from `generateStructs` (golang.go); a nil `Array` pointer cannot occur here
because `typeToGoType` already failed on it. -/
def isArrStruct : Option YType → Bool
  | some a => a.kind == .struct
  | none => false

/-- The `fieldType.Array.Struct` field map stored for an array-of-records
nested entry (golang.go). -/
def arrStructOf : Option YType → Option (List (String × YType))
  | some a => a.struct
  | none => none

/-- The nested-struct collection loop of `generateStructs` (golang.go):
walks the fields in order, calls `typeToGoType`, and records in the
`nestedStructs` map the field map of every direct record field and of every
array-of-records field under its computed name. -/
def collectNested (parent : String) (fields : List (String × YType))
    (acc : List (String × Option (List (String × YType)))) :
    Except GErr (List (String × Option (List (String × YType)))) :=
  match fields with
  | [] => .ok acc
  | (fname, ft) :: rest =>
    match typeToGoType ft parent fname with
    | .error e => .error e
    | .ok (_, nname) =>
      if nname != "" && ft.kind == .struct then
        collectNested parent rest (upsert acc nname ft.struct)
      else if nname != "" && ft.kind == .array && isArrStruct ft.array then
        collectNested parent rest (upsert acc nname (arrStructOf ft.array))
      else collectNested parent rest acc

theorem tWeight_eq (t : YType) :
    tWeight t = 1 + oWeight t.struct + aWeight t.array := by
  cases t
  simp [tWeight, YType.struct, YType.array]

theorem pWeight_upsert_le (acc : List (String × Option (List (String × YType))))
    (k : String) (v : Option (List (String × YType))) :
    pWeight (upsert acc k v) ≤ pWeight acc + 2 + oWeight v := by
  induction acc with
  | nil => simp [upsert, pWeight]
  | cons hd tl ih =>
    cases hd with
    | mk k2 v2 =>
      by_cases hk : k2 = k
      · simp [upsert, hk, pWeight]
        omega
      · simp [upsert, hk, pWeight]
        omega

theorem collect_pWeight_le (parent : String) :
    ∀ (fields : List (String × YType)) acc res,
      collectNested parent fields acc = Except.ok res →
      pWeight res ≤ pWeight acc + fWeight fields := by
  intro fields
  induction fields with
  | nil =>
    intro acc res h
    simp [collectNested] at h
    simp [h, fWeight]
  | cons hd rest ih =>
    intro acc res h
    cases hd with
    | mk fname ft =>
      rw [collectNested] at h
      cases hg : typeToGoType ft parent fname with
      | error e => rw [hg] at h; exact absurd h (by simp)
      | ok pr =>
        rw [hg] at h
        cases pr with
        | mk gt nname =>
          simp only at h
          by_cases h1 : (nname != "" && ft.kind == YKind.struct) = true
          · rw [if_pos h1] at h
            have hres := ih _ _ h
            have hu := pWeight_upsert_le acc nname ft.struct
            have htw := tWeight_eq ft
            simp [fWeight]
            omega
          · rw [if_neg h1] at h
            by_cases h2 : (nname != "" && ft.kind == YKind.array && isArrStruct ft.array) = true
            · rw [if_pos h2] at h
              have hres := ih _ _ h
              have hu := pWeight_upsert_le acc nname (arrStructOf ft.array)
              have htw := tWeight_eq ft
              have harr : oWeight (arrStructOf ft.array) + 2 ≤ 1 + tWeight ft := by
                cases harr2 : ft.array with
                | none => simp [harr2, isArrStruct] at h2
                | some a =>
                  have hta := tWeight_eq a
                  simp [harr2, arrStructOf, aWeight] at htw ⊢
                  omega
              simp [fWeight]
              omega
            · rw [if_neg h2] at h
              have hres := ih _ _ h
              simp [fWeight]
              omega

mutual

/-- Embedding of `generateStructs` (golang.go), specialized to the
declaration-name sequence: `st` is the ordered list of struct names emitted
so far (the `generatedStructs` visited set, in emission order). A name
already emitted returns with nothing added and no error; otherwise the
struct is emitted, its nested records are collected, and each is generated
depth-first. The `Kind = Struct` precondition checked by the source holds at
every call site (`ToGolang` checks the root; recursive nodes are built with
`Kind: Struct`), so it is not re-modelled here. -/
def genStruct (ofields : Option (List (String × YType))) (name : String)
    (st : List String) : Except GErr (List String) :=
  if name ∈ st then .ok st
  else
    match ofields with
    | none => .error .nilStructDeref
    | some fields =>
      match h : collectNested name fields [] with
      | .error e => .error e
      | .ok nested => genList nested (st ++ [name])
termination_by 1 + oWeight ofields
decreasing_by
  simp_wf
  have hb := collect_pWeight_le name fields [] nested h
  simp [pWeight, oWeight] at hb ⊢
  omega

/-- The nested-struct generation loop at the end of `generateStructs`
(golang.go): generate each collected nested record in turn, threading the
visited set. -/
def genList (pairs : List (String × Option (List (String × YType))))
    (st : List String) : Except GErr (List String) :=
  match pairs with
  | [] => .ok st
  | (n, ofs) :: rest =>
    match genStruct ofs n st with
    | .error e => .error e
    | .ok st2 => genList rest st2
termination_by pWeight pairs
decreasing_by
  all_goals simp_wf
  all_goals simp [pWeight]
  all_goals omega

end

/-- Embedding of `ToGolang` (golang.go) restricted to the record-declaration
name sequence it emits (the `Package` option only affects the package header
line, never the declarations). A nil schema and a non-record root fail; an
empty root-type name defaults to `Root`. -/
def ToGolang (t : Option YType) (rootType : String) : Except GErr (List String) :=
  match t with
  | none => .error .nilType
  | some t0 =>
    if h : t0.kind = .struct then
      genStruct t0.struct (if rootType = "" then "Root" else rootType) []
    else .error (.rootNotStruct t0.kind)

/-- The violation contributed by one schema field at the root of `Validate`:
none for an absent optional field or a passing value, the missing-field error
for an absent required field, the first violation of `validateValue`
otherwise. -/
def rootFieldErr (data : List (String × YValue)) (p : String × YType) :
    Option VErr :=
  match mapGet data p.1 with
  | none => if p.2.optional then none else some (.requiredFieldMissing p.1)
  | some v => validateValue v p.2 p.1

theorem validateTop_eq (data : List (String × YValue)) :
    ∀ (fields : List (String × YType)) (acc : List VErr),
      validateTop fields data acc = acc ++ fields.filterMap (rootFieldErr data) := by
  intro fields
  induction fields with
  | nil => intro acc; simp [validateTop]
  | cons hd rest ih =>
    intro acc
    cases hd with
    | mk fname ftype =>
      rw [validateTop]
      cases hget : mapGet data fname with
      | none =>
        by_cases hopt : ftype.optional = true
        · simp [hget, hopt, ih, List.filterMap_cons, rootFieldErr]
        · simp only [Bool.not_eq_true] at hopt
          simp [hget, hopt, ih, List.filterMap_cons, rootFieldErr]
      | some v =>
        cases hval : validateValue v ftype fname with
        | none => simp [hget, hval, ih, List.filterMap_cons, rootFieldErr]
        | some e => simp [hget, hval, ih, List.filterMap_cons, rootFieldErr]

/-- C1: on a record-rooted schema, `Validate` collects one violation per
offending sibling field of the outer record (empty list = valid), while a
violation met inside a nested array element or nested record short-circuits
that recursive call: the first error is propagated and nothing further from
inside that substructure is reported. -/
theorem c1_sibling_collection_nested_shortcircuit :
    (∀ data fields k opt oarr,
      Validate data (some (YType.mk k opt (some fields) oarr)) =
        fields.filterMap (rootFieldErr data)) ∧
    (∀ x xs elemT path i e, validateValue x elemT (idxPath path i) = some e →
      validateElems (x :: xs) elemT path i = some e) ∧
    (∀ x xs elemT path i, validateValue x elemT (idxPath path i) = none →
      validateElems (x :: xs) elemT path i = validateElems xs elemT path (i + 1)) ∧
    (∀ fname ftype rest m path v e, mapGet m fname = some v →
      validateValue v ftype (dotPath path fname) = some e →
      validateFields ((fname, ftype) :: rest) m path = some e) ∧
    (∀ fname ftype rest m path v, mapGet m fname = some v →
      validateValue v ftype (dotPath path fname) = none →
      validateFields ((fname, ftype) :: rest) m path = validateFields rest m path) := by
  refine ⟨?_, ?_, ?_, ?_, ?_⟩
  · intro data fields k opt oarr
    show validateTop fields data [] = _
    simp [validateTop_eq]
  · intro x xs elemT path i e h
    rw [validateElems, h]
  · intro x xs elemT path i h
    rw [validateElems, h]
  · intro fname ftype rest m path v e hget hval
    rw [validateFields, hget]
    simp [hval]
  · intro fname ftype rest m path v hget hval
    rw [validateFields, hget]
    simp [hval]

/-- Witness for C1 at concrete inputs: two bad sibling fields both reported
at the root; inside an array, only the first bad element is reported. -/
theorem c1_witness :
    Validate [("a", YValue.s "x"), ("b", YValue.i 1)]
        (some (YType.mk .struct false
          (some [("a", YType.mk .int8 false none none),
                 ("b", YType.mk .bool false none none)]) none)) =
      [VErr.mustBeInteger "a", VErr.mustBeBoolean "b"] ∧
    validateElems [YValue.s "q", YValue.s "r"]
        (YType.mk .int8 false none none) "xs" 0 =
      some (VErr.mustBeInteger (idxPath "xs" 0)) := by
  constructor
  · rw [c1_sibling_collection_nested_shortcircuit.1]
    simp [rootFieldErr, mapGet, validateValue, YType.optional,
      validateIntValue, intReprAsInt64]
  · exact c1_sibling_collection_nested_shortcircuit.2.1 _ _ _ _ _ _
      (by simp [validateValue, validateIntValue, intReprAsInt64])

/-- C4: a present nil value is accepted with no further type checking when
the field is optional, and yields the nil-not-optional violation at the
field path when the field is required — independently of the field kind and
of the rest of the schema node. -/
theorem c4_present_nil_value (k : YKind) (opt : Bool)
    (ost : Option (List (String × YType))) (oarr : Option YType) (path : String) :
    validateValue YValue.vnil (YType.mk k opt ost oarr) path =
      if opt then none else some (VErr.nilNotOptional path) := by
  rw [validateValue]

/-- C10: `Validate` never inspects the root kind tag: a nil schema or a nil
record-field map yields exactly the single invalid-schema violation (no
panic), and on a non-nil field map the result is the same whatever the
`Kind`, `Optional` and `Array` components of the root node are. -/
theorem c10_root_kind_never_checked :
    (∀ data, Validate data none = [VErr.invalidSchema]) ∧
    (∀ data k opt oarr,
      Validate data (some (YType.mk k opt none oarr)) = [VErr.invalidSchema]) ∧
    (∀ data k k2 opt opt2 oarr oarr2 fields,
      Validate data (some (YType.mk k opt (some fields) oarr)) =
        Validate data (some (YType.mk k2 opt2 (some fields) oarr2))) := by
  exact ⟨fun _ => rfl, fun _ _ _ _ => rfl, fun _ _ _ _ _ _ _ _ => rfl⟩

/-- C2: signed integer kinds accept every whole-number representation the
decoder produces (Go ints of any width, `json.Number` with a successful
`Int64()`, and a `float64` with zero fractional part); a non-integral float
or a wrong dynamic type yields the must-be-integer violation; `int8/16/32`
are range-checked against the signed two-complement bounds (the bound passes,
one past it fails with the range violation); `int64` and default-width `int`
have no bound. -/
theorem c2_signed_integer_validation :
    (∀ n : Int,
      intReprAsInt64 (YValue.i n) = some n ∧
      intReprAsInt64 (YValue.i8 n) = some n ∧
      intReprAsInt64 (YValue.i16 n) = some n ∧
      intReprAsInt64 (YValue.i32 n) = some n ∧
      intReprAsInt64 (YValue.i64 n) = some n) ∧
    (∀ q : Rat, ∀ k path, q.den = 1 →
      validateIntValue (YValue.f64 q) k path = intRangeCheck k q.num path) ∧
    (∀ q : Rat, ∀ k path, q.den ≠ 1 →
      validateIntValue (YValue.f64 q) k path = some (VErr.mustBeInteger path)) ∧
    (∀ x k path, validateIntValue (YValue.s x) k path = some (VErr.mustBeInteger path) ∧
      validateIntValue (YValue.b true) k path = some (VErr.mustBeInteger path) ∧
      validateIntValue YValue.vnil k path = some (VErr.mustBeInteger path)) ∧
    (∀ n path,
      validateIntValue (YValue.i n) .int8 path =
        (if n < -128 ∨ n > 127 then some (VErr.outOfRange path .int8) else none) ∧
      validateIntValue (YValue.i n) .int16 path =
        (if n < -32768 ∨ n > 32767 then some (VErr.outOfRange path .int16) else none) ∧
      validateIntValue (YValue.i n) .int32 path =
        (if n < -2147483648 ∨ n > 2147483647 then some (VErr.outOfRange path .int32) else none) ∧
      validateIntValue (YValue.i n) .int64 path = none ∧
      validateIntValue (YValue.i n) .int path = none) := by
  refine ⟨?_, ?_, ?_, ?_, ?_⟩
  · intro n; exact ⟨rfl, rfl, rfl, rfl, rfl⟩
  · intro q k path h
    simp [validateIntValue, intReprAsInt64, h]
  · intro q k path h
    simp [validateIntValue, intReprAsInt64, h]
  · intro x k path; exact ⟨rfl, rfl, rfl⟩
  · intro n path; exact ⟨rfl, rfl, rfl, rfl, rfl⟩

/-- The rational 5/2, built with explicit fields so that its denominator
reduces definitionally. -/
def q52 : Rat := ⟨5, 2, by norm_num, by norm_num⟩

/-- Witness for C2 at concrete inputs: the whole float 3 passes as `int8`,
the non-integral float 5/2 is a type mismatch, bound 127 passes and 128
fails the `int8` range check. -/
theorem c2_witness :
    validateIntValue (YValue.f64 3) .int8 "f" = none ∧
    validateIntValue (YValue.f64 q52) .int8 "f" = some (VErr.mustBeInteger "f") ∧
    validateIntValue (YValue.i 127) .int8 "f" = none ∧
    validateIntValue (YValue.i 128) .int8 "f" = some (VErr.outOfRange "f" .int8) := by
  refine ⟨?_, ?_, ?_, ?_⟩
  · have h := c2_signed_integer_validation.2.1 3 .int8 "f" (by decide)
    rw [h]; decide
  · exact c2_signed_integer_validation.2.2.1 q52 .int8 "f" (by decide)
  · have h := (c2_signed_integer_validation.2.2.2.2 127 "f").1
    rw [h]; decide
  · have h := (c2_signed_integer_validation.2.2.2.2 128 "f").1
    rw [h]; decide

/-- C3: unsigned integer kinds accept whole-number numeric values, report
the must-be-non-negative-integer violation for every negative value of any
signed or float representation, range-check `uint8/16/32` against the
unsigned bounds, and enforce no bound for `uint64` and default-width
`uint`. -/
theorem c3_unsigned_integer_validation :
    (∀ n : Nat,
      uintReprAsUint64 (YValue.u n) = some n ∧
      uintReprAsUint64 (YValue.u8 n) = some n ∧
      uintReprAsUint64 (YValue.u16 n) = some n ∧
      uintReprAsUint64 (YValue.u32 n) = some n ∧
      uintReprAsUint64 (YValue.u64 n) = some n) ∧
    (∀ n : Int, ∀ k path, n < 0 →
      validateUintValue (YValue.i n) k path = some (VErr.mustBeNonNegInteger path) ∧
      validateUintValue (YValue.i8 n) k path = some (VErr.mustBeNonNegInteger path) ∧
      validateUintValue (YValue.i16 n) k path = some (VErr.mustBeNonNegInteger path) ∧
      validateUintValue (YValue.i32 n) k path = some (VErr.mustBeNonNegInteger path) ∧
      validateUintValue (YValue.i64 n) k path = some (VErr.mustBeNonNegInteger path)) ∧
    (∀ q : Rat, ∀ k path, q < 0 →
      validateUintValue (YValue.f64 q) k path = some (VErr.mustBeNonNegInteger path)) ∧
    (∀ n : Int, ∀ k path, 0 ≤ n →
      validateUintValue (YValue.i n) k path = uintRangeCheck k n.toNat path) ∧
    (∀ n path,
      validateUintValue (YValue.u n) .uint8 path =
        (if n > 255 then some (VErr.outOfRange path .uint8) else none) ∧
      validateUintValue (YValue.u n) .uint16 path =
        (if n > 65535 then some (VErr.outOfRange path .uint16) else none) ∧
      validateUintValue (YValue.u n) .uint32 path =
        (if n > 4294967295 then some (VErr.outOfRange path .uint32) else none) ∧
      validateUintValue (YValue.u64 n) .uint64 path = none ∧
      validateUintValue (YValue.u n) .uint path = none) := by
  refine ⟨?_, ?_, ?_, ?_, ?_⟩
  · intro n; exact ⟨rfl, rfl, rfl, rfl, rfl⟩
  · intro n k path h
    have h2 : ¬ (0 ≤ n) := by omega
    refine ⟨?_, ?_, ?_, ?_, ?_⟩ <;> simp [validateUintValue, uintReprAsUint64, h2]
  · intro q k path h
    have h2 : ¬ (0 ≤ q) := not_le.mpr h
    simp [validateUintValue, uintReprAsUint64, h2]
  · intro n k path h
    simp [validateUintValue, uintReprAsUint64, h]
  · intro n path; exact ⟨rfl, rfl, rfl, rfl, rfl⟩

/-- Witness for C3 at concrete inputs: bound 255 passes and 256 fails the
`uint8` range check, and the negative values -1 (int) and -1/2 (float) are
type mismatches. -/
theorem c3_witness :
    validateUintValue (YValue.u 255) .uint8 "f" = none ∧
    validateUintValue (YValue.u 256) .uint8 "f" = some (VErr.outOfRange "f" .uint8) ∧
    validateUintValue (YValue.i (-1)) .uint8 "f" = some (VErr.mustBeNonNegInteger "f") ∧
    validateUintValue (YValue.f64 (-1 / 2)) .uint8 "f" = some (VErr.mustBeNonNegInteger "f") := by
  refine ⟨?_, ?_, ?_, ?_⟩
  · have h := (c3_unsigned_integer_validation.2.2.2.2 255 "f").1
    rw [h]; decide
  · have h := (c3_unsigned_integer_validation.2.2.2.2 256 "f").1
    rw [h]; decide
  · exact ((c3_unsigned_integer_validation.2.1 (-1) .uint8 "f") (by decide)).1
  · exact c3_unsigned_integer_validation.2.2.1 (-1 / 2) .uint8 "f" (by norm_num)

/-- C5: a field declared as a sequence needs exactly one element: the empty
sequence fails with the missing-element-type error, two or more elements
fail with the ambiguous-element-type error, and a singleton is recursively
parsed as the array element schema, with the optional flag applied to the
array field and never to the element (it is parsed with `isOptional =
false`). -/
theorem c5_array_arity :
    (∀ fieldName opt, parseValueToType fieldName (RawValue.seq []) opt =
      .error (.missingArrayElementType fieldName)) ∧
    (∀ fieldName opt x y ys,
      parseValueToType fieldName (RawValue.seq (x :: y :: ys)) opt =
        .error (.ambiguousArrayElementType fieldName)) ∧
    (∀ fieldName opt x,
      parseValueToType fieldName (RawValue.seq [x]) opt =
        match parseValueToType fieldName x false with
        | .error e => .error e
        | .ok itemType => .ok (YType.mk .array opt none (some itemType))) := by
  refine ⟨?_, ?_, ?_⟩
  · intro fieldName opt; rw [parseValueToType]
  · intro fieldName opt x y ys; rw [parseValueToType]
  · intro fieldName opt x; rw [parseValueToType]

/-- A record chain of raw input nested to depth `n`. -/
def deepRaw : Nat → RawValue
  | 0 => .str "int"
  | n + 1 => .rmap [("a", deepRaw n)]

/-- The schema the Builder produces for `deepRaw n`. -/
def deepTy : Nat → YType
  | 0 => .mk .int false none none
  | n + 1 => .mk .struct false (some [("a", deepTy n)]) none

/-- A data instance nested to depth `n`, matching `deepTy n`. -/
def deepVal : Nat → YValue
  | 0 => .i 0
  | n + 1 => .vmap [("a", deepVal n)]

theorem deep_ok : ∀ n : Nat,
    parseValueToType "a" (deepRaw n) false = .ok (deepTy n) ∧
    (∀ path, validateValue (deepVal n) (deepTy n) path = none) := by
  intro n
  induction n with
  | zero =>
    constructor
    · rw [deepRaw, deepTy, parseValueToType]; rfl
    · intro path
      rw [deepVal, deepTy]
      simp [validateValue, validateIntValue, intReprAsInt64, intRangeCheck]
  | succ n ih =>
    have hs : stripOpt "a" = (false, "a") := by decide
    have hiv : isValidFieldName "a" = true := by decide
    constructor
    · rw [deepRaw, deepTy, parseValueToType, parseStructFields]
      simp [hs, hiv, ih.1, parseStructFields, upsert]
    · intro path
      rw [deepVal, deepTy]
      simp [validateValue, validateFields, mapGet, ih.2, YType.optional]

/-- C9 counterexample: at nesting depth 100 the Builder succeeds and the
Validator reports no violation — neither fails with any depth error (no
depth error exists in either error type). -/
theorem c9_counterexample :
    parseValueToType "a" (deepRaw 100) false = .ok (deepTy 100) ∧
    validateValue (deepVal 100) (deepTy 100) "a" = none :=
  ⟨(deep_ok 100).1, (deep_ok 100).2 "a"⟩

/-- C9 amended: neither the Builder nor the Validator caps recursion depth;
both recurse structurally without bound and succeed at every nesting depth
`n`, and no depth-exceeded error exists in either component. -/
theorem c9_amended_no_depth_cap : ∀ n : Nat,
    parseValueToType "a" (deepRaw n) false = .ok (deepTy n) ∧
    validateValue (deepVal n) (deepTy n) "root" = none :=
  fun n => ⟨(deep_ok n).1, (deep_ok n).2 "root"⟩

/-- Specification-side word splitter: underscores, hyphens and spaces are
word boundaries; boundaries are removed and delimit (possibly empty) words. -/
def splitWords : List Char → List (List Char)
  | [] => [[]]
  | c :: cs =>
    if c = '_' ∨ c = '-' ∨ c = ' ' then [] :: splitWords cs
    else
      match splitWords cs with
      | w :: ws => (c :: w) :: ws
      | [] => [[c]]

/-- Capitalize the first letter of a word. -/
def capFirst : List Char → List Char
  | [] => []
  | c :: rest => c.toUpper :: rest

/-- PascalCase as the specification words it: split on the boundary
characters, capitalize the first letter of each word, and concatenate with
the boundaries removed. -/
def pascalSpec (s : String) : String :=
  String.mk (((splitWords s.toList).map capFirst).join)

theorem splitWords_ne_nil (cs : List Char) : splitWords cs ≠ [] := by
  induction cs with
  | nil => simp [splitWords]
  | cons c cs ih =>
    by_cases h : c = '_' ∨ c = '-' ∨ c = ' '
    · simp [splitWords, h]
    · rw [splitWords, if_neg h]
      cases hs : splitWords cs with
      | nil => simp
      | cons w ws => simp

theorem camelGo_spec (cs : List Char) :
    camelGo cs true = ((splitWords cs).map capFirst).join ∧
    camelGo cs false =
      (match splitWords cs with
       | w :: ws => w ++ ((ws.map capFirst).join)
       | [] => []) := by
  induction cs with
  | nil => exact ⟨rfl, rfl⟩
  | cons c cs ih =>
    by_cases h : c = '_' ∨ c = '-' ∨ c = ' '
    · rw [camelGo, if_pos h, camelGo, if_pos h, splitWords, if_pos h]
      refine ⟨?_, ?_⟩
      · simp [capFirst, ih.1]
      · simp [ih.1]
    · rw [camelGo, if_neg h, camelGo, if_neg h, splitWords, if_neg h]
      cases hs : splitWords cs with
      | nil => exact absurd hs (splitWords_ne_nil cs)
      | cons w ws =>
        have h2 := ih.2
        rw [hs] at h2
        refine ⟨?_, ?_⟩
        · simp [capFirst, h2]
        · simp [h2]

/-- The Go implementation of PascalCase conversion agrees with the
specification-side description for every string. -/
theorem toCamelCase_eq_pascalSpec (s : String) : toCamelCase s = pascalSpec s := by
  rw [toCamelCase, pascalSpec]
  exact congrArg String.mk (camelGo_spec s.toList).1

theorem gen_inv : ∀ N : Nat,
    (∀ ofs name st st2, 1 + oWeight ofs ≤ N →
      genStruct ofs name st = Except.ok st2 →
      (∃ suf, st2 = st ++ suf) ∧ (st.Nodup → st2.Nodup) ∧
      (name ∉ st → ∃ suf, st2 = st ++ name :: suf)) ∧
    (∀ pairs st st2, pWeight pairs ≤ N →
      genList pairs st = Except.ok st2 →
      (∃ suf, st2 = st ++ suf) ∧ (st.Nodup → st2.Nodup)) := by
  intro N
  induction N using Nat.strong_induction_on with
  | _ N ih =>
    constructor
    · intro ofs name st st2 hw hok
      rw [genStruct.eq_def] at hok
      split at hok
      · -- name already emitted: nothing changes
        rename_i hmem
        simp only [Except.ok.injEq] at hok
        subst hok
        exact ⟨⟨[], by simp⟩, fun h => h, fun hn => absurd hmem hn⟩
      · rename_i hmem
        cases ofs with
        | none => simp at hok
        | some fields =>
          simp only at hok
          split at hok
          · simp at hok
          · rename_i nested heq
            have hb := collect_pWeight_le name fields [] nested heq
            have hwf : oWeight (some fields) = 1 + fWeight fields := by
              rw [oWeight]
            have hlt : pWeight nested < N := by
              simp [pWeight] at hb
              omega
            have hres := (ih (pWeight nested) hlt).2 nested (st ++ [name]) st2
              (le_refl _) hok
            obtain ⟨⟨suf, hsuf⟩, hnd⟩ := hres
            refine ⟨⟨name :: suf, by simp [hsuf]⟩, ?_, fun _ => ⟨suf, by simp [hsuf]⟩⟩
            intro hstn
            apply hnd
            rw [List.nodup_append]
            refine ⟨hstn, List.nodup_singleton _, ?_⟩
            intro a ha hb2
            simp at hb2
            subst hb2
            exact hmem ha
    · intro pairs st st2 hw hok
      cases pairs with
      | nil =>
        simp only [genList, Except.ok.injEq] at hok
        subst hok
        exact ⟨⟨[], by simp⟩, fun h => h⟩
      | cons hd rest =>
        obtain ⟨n0, ofs⟩ := hd
        simp only [genList] at hok
        split at hok
        · simp at hok
        · rename_i st1 heq
          have hw2 : pWeight ((n0, ofs) :: rest) = 2 + oWeight ofs + pWeight rest := by
            rw [pWeight]
          have hlt1 : 1 + oWeight ofs < N := by omega
          have hlt2 : pWeight rest < N := by omega
          have h1 := (ih (1 + oWeight ofs) hlt1).1 ofs n0 st st1 (le_refl _) heq
          have h2 := (ih (pWeight rest) hlt2).2 rest st1 st2 (le_refl _) hok
          obtain ⟨⟨suf1, hsuf1⟩, hnd1, _⟩ := h1
          obtain ⟨⟨suf2, hsuf2⟩, hnd2⟩ := h2
          exact ⟨⟨suf1 ++ suf2, by simp [hsuf2, hsuf1]⟩, fun h => hnd2 (hnd1 h)⟩

theorem genList_nil (st : List String) : genList [] st = .ok st := by
  rw [genList.eq_def]

theorem genList_cons (n0 : String) (ofs : Option (List (String × YType)))
    (rest : List (String × Option (List (String × YType)))) (st : List String) :
    genList ((n0, ofs) :: rest) st =
      match genStruct ofs n0 st with
      | .error e => .error e
      | .ok st2 => genList rest st2 := by
  rw [genList.eq_def]

theorem genStruct_mem (ofs : Option (List (String × YType))) (name : String)
    (st : List String) (hmem : name ∈ st) : genStruct ofs name st = .ok st := by
  rw [genStruct.eq_def, if_pos hmem]

theorem genStruct_step (fields : List (String × YType)) (name : String)
    (st : List String) (nested : List (String × Option (List (String × YType))))
    (hmem : ¬ (name ∈ st))
    (hc : collectNested name fields [] = Except.ok nested) :
    genStruct (some fields) name st = genList nested (st ++ [name]) := by
  rw [genStruct.eq_def, if_neg hmem]
  simp only []
  split
  · rename_i e heq
    rw [hc] at heq
    simp at heq
  · rename_i nested2 heq
    rw [hc] at heq
    simp only [Except.ok.injEq] at heq
    subst heq
    rfl

/-- A required string field schema node. -/
def tStr : YType := YType.mk .string false none none

/-- A required default-width int field schema node. -/
def tIntP : YType := YType.mk .int false none none

/-- The schema of the nested-array-of-records scenario:
`addresses: [%x7bstreet: string, city: string%x7d]`. -/
def addrSchema : YType :=
  YType.mk .struct false
    (some [("addresses", YType.mk .array false none
      (some (YType.mk .struct false
        (some [("street", tStr), ("city", tStr)]) none)))]) none

theorem addr_eval : ToGolang (some addrSchema) "Root" = .ok ["Root", "RootAddresses"] := by
  have hc1 : collectNested "Root"
      [("addresses", YType.mk .array false none
        (some (YType.mk .struct false
          (some [("street", tStr), ("city", tStr)]) none)))] [] =
      .ok [("RootAddresses", some [("street", tStr), ("city", tStr)])] := by
    simp [collectNested, typeToGoType.eq_def, toCamelCase, camelGo, upsert,
      isArrStruct, arrStructOf, YType.kind, YType.struct, YType.array]
  have hc2 : collectNested "RootAddresses" [("street", tStr), ("city", tStr)] [] =
      .ok [] := by
    simp [collectNested, typeToGoType.eq_def, tStr, YType.kind, YType.struct,
      YType.array]
  rw [ToGolang]
  simp only [addrSchema, YType.kind, YType.struct, reduceDIte, ite_self]
  simp [genStruct_step, genList_cons, genList_nil, genStruct_mem, hc1, hc2]

/-- C6: the nested-array-of-records schema produces exactly two record
declarations, the root and `Root` + `Addresses`; in general a direct record
field and the record element of an array field are both assigned the name
`ParentName ++ PascalCase(fieldName)`, and the implemented case conversion
agrees with the boundary-splitting PascalCase specification on every
string. -/
theorem c6_nested_record_naming :
    (∀ s, toCamelCase s = pascalSpec s) ∧
    (∀ opt ost oarr parent fname,
      typeToGoType (YType.mk .struct opt ost oarr) parent fname =
        .ok ((if opt then "*" ++ (parent ++ toCamelCase fname)
              else parent ++ toCamelCase fname),
             parent ++ toCamelCase fname)) ∧
    (∀ opt ost opt2 ost2 oarr2 parent fname,
      typeToGoType (YType.mk .array opt ost
          (some (YType.mk .struct opt2 ost2 oarr2))) parent fname =
        .ok ("[]" ++ (if opt2 then "*" ++ (parent ++ toCamelCase fname)
              else parent ++ toCamelCase fname),
             parent ++ toCamelCase fname)) ∧
    ToGolang (some addrSchema) "Root" = .ok ["Root", "RootAddresses"] := by
  refine ⟨toCamelCase_eq_pascalSpec, ?_, ?_, addr_eval⟩
  · intro opt ost oarr parent fname
    simp [typeToGoType.eq_def]
  · intro opt ost opt2 ost2 oarr2 parent fname
    simp [typeToGoType.eq_def]

/-- The inner record of the name-collision scenario, structurally different
from the root-level record that computes the same name. -/
def collideInner : YType :=
  YType.mk .struct false (some [("x", tStr)]) none

/-- A schema in which the depth-2 record `ab.c` and the root-level record
field `abC` both compute the declaration name `RootAbC`. -/
def collideSchema : YType :=
  YType.mk .struct false
    (some [("ab", YType.mk .struct false (some [("c", collideInner)]) none),
           ("abC", YType.mk .struct false (some [("y", tIntP)]) none)]) none

theorem collide_eval :
    ToGolang (some collideSchema) "Root" = .ok ["Root", "RootAb", "RootAbC"] := by
  have hc1 : collectNested "Root"
      [("ab", YType.mk .struct false (some [("c", collideInner)]) none),
       ("abC", YType.mk .struct false (some [("y", tIntP)]) none)] [] =
      .ok [("RootAb", some [("c", collideInner)]),
           ("RootAbC", some [("y", tIntP)])] := by
    simp [collectNested, typeToGoType.eq_def, toCamelCase, camelGo, upsert,
      isArrStruct, arrStructOf, YType.kind, YType.struct, YType.array]
  have hc2 : collectNested "RootAb" [("c", collideInner)] [] =
      .ok [("RootAbC", some [("x", tStr)])] := by
    simp [collectNested, typeToGoType.eq_def, toCamelCase, camelGo, upsert,
      isArrStruct, arrStructOf, YType.kind, YType.struct, YType.array,
      collideInner]
  have hc3 : collectNested "RootAbC" [("x", tStr)] [] = .ok [] := by
    simp [collectNested, typeToGoType.eq_def, tStr, YType.kind, YType.struct,
      YType.array]
  rw [ToGolang]
  simp only [collideSchema, YType.kind, YType.struct, reduceDIte, ite_self]
  simp [genStruct_step, genList_cons, genList_nil, genStruct_mem, hc1, hc2, hc3]

/-- C7: the visited set keyed by assigned name guarantees the emitted
declaration sequence never repeats a name, and a structurally different
record whose computed name was already emitted is silently skipped with no
error: in the collision schema the depth-2 record `%x7bx: string%x7d` is
emitted as `RootAbC` and the different root-level record `%x7by: int%x7d`
with the same computed name is not emitted, the walk succeeding. -/
theorem c7_visited_set_dedup :
    (∀ t rootType decls, ToGolang t rootType = Except.ok decls → decls.Nodup) ∧
    ToGolang (some collideSchema) "Root" = .ok ["Root", "RootAb", "RootAbC"] ∧
    ([("y", tIntP)] : List (String × YType)) ≠ [("x", tStr)] := by
  refine ⟨?_, collide_eval, ?_⟩
  · intro t rootType decls h
    rw [ToGolang.eq_def] at h
    cases t with
    | none => simp at h
    | some t0 =>
      simp only at h
      split at h
      · exact ((gen_inv (1 + oWeight t0.struct)).1 t0.struct _ [] decls
          (le_refl _) h).2.1 List.nodup_nil
      · simp at h
  · simp [tIntP, tStr]

/-- Witness for C7: the deduplication theorem applied at the collision
schema yields a duplicate-free declaration list. -/
theorem c7_witness : (["Root", "RootAb", "RootAbC"] : List String).Nodup :=
  c7_visited_set_dedup.1 (some collideSchema) "Root" _ collide_eval

/-- An empty record schema node. -/
def emptyRec : YType := YType.mk .struct false (some []) none

/-- Root fields `a`, `b` (two empty nested records) in one iteration order. -/
def permA : List (String × YType) := [("a", emptyRec), ("b", emptyRec)]

/-- The same field map in the other iteration order. -/
def permB : List (String × YType) := [("b", emptyRec), ("a", emptyRec)]

theorem permA_eval :
    ToGolang (some (YType.mk .struct false (some permA) none)) "Root" =
      .ok ["Root", "RootA", "RootB"] := by
  have hc1 : collectNested "Root" permA [] =
      .ok [("RootA", some []), ("RootB", some [])] := by
    simp [permA, emptyRec, collectNested, typeToGoType.eq_def, toCamelCase,
      camelGo, upsert, isArrStruct, arrStructOf, YType.kind, YType.struct,
      YType.array]
  have hc2 : ∀ name : String, collectNested name ([] : List (String × YType)) [] = .ok [] := by
    intro name; simp [collectNested]
  rw [ToGolang]
  simp only [YType.kind, YType.struct, reduceDIte, ite_self]
  simp [genStruct_step, genList_cons, genList_nil, genStruct_mem, hc1, hc2]

theorem permB_eval :
    ToGolang (some (YType.mk .struct false (some permB) none)) "Root" =
      .ok ["Root", "RootB", "RootA"] := by
  have hc1 : collectNested "Root" permB [] =
      .ok [("RootB", some []), ("RootA", some [])] := by
    simp [permB, emptyRec, collectNested, typeToGoType.eq_def, toCamelCase,
      camelGo, upsert, isArrStruct, arrStructOf, YType.kind, YType.struct,
      YType.array]
  have hc2 : ∀ name : String, collectNested name ([] : List (String × YType)) [] = .ok [] := by
    intro name; simp [collectNested]
  rw [ToGolang]
  simp only [YType.kind, YType.struct, reduceDIte, ite_self]
  simp [genStruct_step, genList_cons, genList_nil, genStruct_mem, hc1, hc2]

/-- C8 counterexample: the same root field map presented in two iteration
orders (Go map iteration order is unspecified) yields two different
declaration name sequences, so the sequence is not a function of the schema
and root name alone. -/
theorem c8_counterexample :
    permA.Perm permB ∧
    ToGolang (some (YType.mk .struct false (some permA) none)) "Root" =
      .ok ["Root", "RootA", "RootB"] ∧
    ToGolang (some (YType.mk .struct false (some permB) none)) "Root" =
      .ok ["Root", "RootB", "RootA"] ∧
    (["Root", "RootA", "RootB"] : List String) ≠ ["Root", "RootB", "RootA"] := by
  refine ⟨List.Perm.swap _ _ _, permA_eval, permB_eval, by simp⟩

/-- C8 amended: the declaration sequence is a deterministic function of the
schema, root name and field-iteration order, but not of the schema and root
name alone; the root declaration always comes first, and at the
counterexample the two orders emit the same multiset of names in different
sequences. -/
theorem c8_amended_root_first_order_dependent :
    (∀ t rootType decls, ToGolang t rootType = Except.ok decls →
      ∃ rest, decls = (if rootType = "" then "Root" else rootType) :: rest) ∧
    ((["Root", "RootA", "RootB"] : List String) : Multiset String) =
      ((["Root", "RootB", "RootA"] : List String) : Multiset String) := by
  constructor
  · intro t rootType decls h
    rw [ToGolang.eq_def] at h
    cases t with
    | none => simp at h
    | some t0 =>
      simp only at h
      split at h
      · have hres := ((gen_inv (1 + oWeight t0.struct)).1 t0.struct _ [] decls
          (le_refl _) h).2.2 (by simp)
        obtain ⟨suf, hsuf⟩ := hres
        exact ⟨suf, by simpa using hsuf⟩
      · simp at h
  · exact Multiset.coe_eq_coe.mpr (List.Perm.cons _ (List.Perm.swap _ _ _))

/-- Witness for the amended C8: root-first applied at a concrete walk. -/
theorem c8_witness :
    ∃ rest, (["Root", "RootA", "RootB"] : List String) = "Root" :: rest := by
  have h := c8_amended_root_first_order_dependent.1
    (some (YType.mk .struct false (some permA) none)) "Root" _ permA_eval
  simpa using h
